import Mathlib

/-!
# Verification of the flight-monitor fare-search pipeline

Shallow embedding of the core of `monitor.py` and `scraper.py`
(Alepazz/flight-monitor): the price/stop normalizers, the date-pair
sampler, the two-phase search orchestration (outbound searches, return-leg
detail searches, merge, deduplication, ranking), and the extractor's
exception-flow skeleton.

Modelling conventions:
* Python `float` prices are modelled as exact rationals (`ℚ`).
* Calendar dates are modelled as integer day numbers (an offset in days
  from an arbitrary epoch); `today` is a parameter.  The Python code
  round-trips dates through `"%Y-%m-%d"` / `"%d/%m/%Y"` strings via
  `strftime`/`strptime`; both formats are injective on dates, so equality
  of the integer models coincides with equality of the formatted strings.
* Python strings are Lean `String`s / `List Char`; the regex `\d` of
  `re.sub`/`re.search` is modelled as ASCII `Char.isDigit` (all inputs of
  interest are ASCII digits).
* The browser session of `scraper.py` is abstracted to an environment of
  fault flags plus the listings the page would yield; exceptions are
  modelled with `Except`.
-/

namespace FlightMonitor

/-- `MAX_DAYS_AHEAD` from monitor.py: Google Flights' forward availability
horizon in days. -/
def MAX_DAYS_AHEAD : ℤ := 330

/-- The `KNOWN_AIRPORTS` table from monitor.py. -/
def KNOWN_AIRPORTS : List (String × String) :=
  [("MXP", "Malpensa"), ("LIN", "Linate"), ("BGY", "Bergamo"),
   ("MLE", "Malé"), ("FCO", "Fiumicino"), ("VCE", "Venezia"),
   ("BLQ", "Bologna"), ("NAP", "Napoli"), ("PMO", "Palermo"),
   ("CTA", "Catania"), ("TRN", "Torino"), ("FLR", "Firenze"),
   ("PSA", "Pisa")]

/-- `get_airport_name`: airport display name, or the IATA code itself when
unknown. -/
def get_airport_name (code : String) : String :=
  (KNOWN_AIRPORTS.lookup code).getD code

/-! ## Price normalizer (`parse_price`) -/

/-- `re.sub(r"[^\d.,]", "", s)`: keep only digits, periods and commas. -/
def cleanedChars (s : String) : List Char :=
  s.data.filter (fun ch => ch.isDigit || ch == '.' || ch == ',')

/-- Python `str.rindex(ch)`: index of the last occurrence of `ch`
(meaningful only when `ch` occurs in `l`, which is how parse_price uses
it). -/
def rindex (l : List Char) (ch : Char) : ℕ :=
  l.length - 1 - l.reverse.indexOf ch

/-- Python `str.replace(a, b)` for single characters. -/
def replaceChar (l : List Char) (a b : Char) : List Char :=
  l.map (fun c => if c == a then b else c)

/-- Python `str.replace(a, "")` for a single character. -/
def removeChar (l : List Char) (a : Char) : List Char :=
  l.filter (fun c => c != a)

/-- `len(cleaned.split(",")[-1])`: length of the group after the last
comma (parse_price evaluates it only when a comma is present). -/
def lastGroupLen (l : List Char) : ℕ :=
  (l.reverse.takeWhile (fun c => c != ',')).length

/-- Value of a digit string read in base 10 (`int` semantics on digit
lists). -/
def digitsVal (l : List Char) : ℕ :=
  l.foldl (fun acc c => 10 * acc + (c.toNat - 48)) 0

/-- Python `float(s)` restricted to the strings parse_price can produce
(characters drawn from digits, `.`, `,`): succeeds exactly on strings made
of digits and at most one period containing at least one digit; any comma
or second period raises `ValueError` (modelled as `none`). -/
def pyFloatQ (l : List Char) : Option ℚ :=
  if l.all (fun c => c.isDigit || c == '.') = true ∧
      l.any (fun c => c.isDigit) = true ∧ l.count '.' ≤ 1 then
    let ip := l.takeWhile (fun c => c != '.')
    let fp := (l.dropWhile (fun c => c != '.')).drop 1
    some ((digitsVal ip : ℚ) + (digitsVal fp : ℚ) / 10 ^ fp.length)
  else none

/-- `parse_price` from monitor.py: extract the numeric value of a price
string; `none` models the Python `None` ("unparseable") result. -/
def parse_price (s : String) : Option ℚ :=
  if s = "" then none
  else
    let cleaned := cleanedChars s
    let adjusted :=
      if cleaned.contains ',' && cleaned.contains '.' then
        if rindex cleaned ',' > rindex cleaned '.' then
          replaceChar (removeChar cleaned '.') ',' '.'
        else
          removeChar cleaned ','
      else if cleaned.contains ',' then
        if lastGroupLen cleaned = 3 then removeChar cleaned ','
        else replaceChar cleaned ',' '.'
      else cleaned
    pyFloatQ adjusted

/-! ## Stops normalizer (`parse_stops`) -/

/-- First maximal run of digits in a string, as a number
(`re.search(r"(\d+)", s)` followed by `int`). -/
def firstNumber : List Char → Option ℕ
  | [] => none
  | c :: rest =>
    if c.isDigit then some (digitsVal (c :: rest.takeWhile Char.isDigit))
    else firstNumber rest

/-- `parse_stops` from monitor.py: number of stops from a free-text label.
Nonstop/direct language gives 0; otherwise the first embedded integer;
otherwise 0. -/
def parse_stops (s : String) : ℕ :=
  if s = "" then 0
  else
    let l := s.data.map Char.toLower
    if ("nonstop".data <:+: l) ∨ ("dirett".data <:+: l) then 0
    else (firstNumber l).getD 0

/-! ## Date-pair sampler (`generate_date_pairs`) -/

/-- The monitoring configuration fields consumed by the core (from
`config.json`; `sample_every_n_days` defaults to 5 at the read site, the
default is applied by the caller of this model). -/
structure Config where
  origins : List String
  destination : String
  date_from : ℤ
  date_to : ℤ
  nights_min : ℤ
  nights_max : ℤ
  step : ℤ
  adults : ℕ
  max_stops : ℕ

/-- The nights candidate list of generate_date_pairs:
`[nights_min, nights_max]`, with the floor midpoint inserted at position 1
when the span exceeds 2 (Python `//` is floor division, `Int.fdiv`). -/
def nightsOptions (c : Config) : List ℤ :=
  if c.nights_max - c.nights_min > 2 then
    [c.nights_min, Int.fdiv (c.nights_min + c.nights_max) 2, c.nights_max]
  else
    [c.nights_min, c.nights_max]

/-- One-pass unfolding of the `while current <= effective_end` loop of
generate_date_pairs (which advances by `current += step` each pass),
with an explicit iteration budget `fuel` so the definition is structural
and kernel-computable.  When `0 < step`, each pass shrinks
`endD + 1 - current` by at least one, so a budget of
`(endD + 1 - current).toNat` is exact (see `genLoop_cons`/`genLoop_nil`,
which recover the loop's defining equations).  The `0 < step` guard is not
in the Python code: for `step ≤ 0` with a non-empty window the Python loop
never terminates, which is analysed separately via `loopCurrent`. -/
def genLoopAux (endD step : ℤ) : ℕ → ℤ → List ℤ
  | 0, _ => []
  | fuel + 1, current =>
    if 0 < step ∧ current ≤ endD then
      current :: genLoopAux endD step fuel (current + step)
    else []

/-- The departure dates visited by the sampling loop of
generate_date_pairs. -/
def genLoop (endD step current : ℤ) : List ℤ :=
  genLoopAux endD step (endD + 1 - current).toNat current

/-- The departure-date cursor after `n` iterations of the while-loop in
generate_date_pairs (`current += step` each pass, starting from the
clipped window start). -/
def loopCurrent (start step : ℤ) (n : ℕ) : ℤ := start + n * step

/-- `generate_date_pairs` from monitor.py.  Returns
`(pairs, start, max_date)` exactly like the Python function; each pair is
`(departure, return, nights)`.  The Python code formats the two dates with
`strftime("%Y-%m-%d")` (an injective encoding); the model keeps the day
numbers. -/
def generate_date_pairs (today : ℤ) (c : Config) :
    List (ℤ × ℤ × ℤ) × ℤ × ℤ :=
  let maxDate := today + MAX_DAYS_AHEAD
  let effStart := max c.date_from (today + 1)
  let effEnd := min c.date_to maxDate
  if effStart > effEnd then ([], c.date_from, maxDate)
  else
    ((genLoop effEnd c.step effStart).flatMap fun cur =>
      (nightsOptions c).filterMap fun n =>
        if cur + n ≤ maxDate then some (cur, cur + n, n) else none,
     c.date_from, maxDate)

/-- The per-departure block of pairs produced by the inner `for nights in
nights_options` loop of generate_date_pairs (the flatMap body above). -/
def nightsGroup (c : Config) (maxDate cur : ℤ) : List (ℤ × ℤ × ℤ) :=
  (nightsOptions c).filterMap fun n =>
    if cur + n ≤ maxDate then some (cur, cur + n, n) else none

/-! ## Scraped listings and queries -/

/-- `ScrapedFlight` from scraper.py: one parsed result card, all fields
free text.  (`SearchResult.raw_html` is only logged and is omitted.) -/
structure ScrapedFlight where
  airline : String
  departure : String
  arrival : String
  duration : String
  stops : String
  price : String
deriving DecidableEq

/-- Trip kind of a search (`trip` argument of `search_flights`). -/
inductive TripKind
  | roundTrip
  | oneWay
deriving DecidableEq

/-- A search request as handed to `search_flights`/`build_url`: the trip
kind, the legs as (date, from_airport, to_airport), and the passenger
count.  `build_url`'s serialized token is an external deterministic
encoding of exactly these data (spec §6), so the model uses the query
value itself where the code carries a URL. -/
structure Query where
  trip : TripKind
  legs : List (ℤ × String × String)
  adults : ℕ
deriving DecidableEq

/-- The round-trip query/deep-link built per outbound search in
`main`/`process_results`. -/
def outboundQuery (c : Config) (origin : String) (dep ret : ℤ) : Query :=
  { trip := .roundTrip,
    legs := [(dep, origin, c.destination), (ret, c.destination, origin)],
    adults := c.adults }

/-! ## Extractor fault model (scraper.py `_fetch_flights`) -/

/-- The faults an individual fetch can encounter. -/
inductive FetchErr
  | navTimeout
  | netIdleTimeout
  | evalFailure
deriving DecidableEq

/-- Abstraction of one browser session: which operations fault, and the
listings the page evaluation would extract.  Consent-interstitial and
overlay clicks are each wrapped in their own `try/except` in the source
and can never fault outward, so they need no flag. -/
structure PageEnv where
  navTimeout : Bool
  selectorFound : Bool
  netIdleTimeout : Bool
  evalFault : Bool
  listings : List ScrapedFlight

/-- Exception flow of `_fetch_flights` (scraper.py).  The body is a
`try/finally` with **no** `except`: `page.goto` timeouts propagate; every
`wait_for_selector` is caught (`except: continue`); if no selector is
found, the `networkidle` fallback wait can itself time out and propagate;
`page.evaluate` failures propagate.  `finally` only closes the browser. -/
def fetchModel (env : PageEnv) : Except FetchErr (List ScrapedFlight) :=
  if env.navTimeout then .error .navTimeout
  else if !env.selectorFound && env.netIdleTimeout then .error .netIdleTimeout
  else if env.evalFault then .error .evalFailure
  else .ok env.listings

/-- `run_search` from monitor.py: wraps one search in
`try/except Exception`, logging and returning `None` on any fault. -/
def runSearchModel (fetch : Query → Except FetchErr (List ScrapedFlight))
    (q : Query) : Option (List ScrapedFlight) :=
  match fetch q with
  | .ok r => some r
  | .error _ => none

/-- Whether a fetch outcome is a raised exception. -/
def isErr {ε α : Type} : Except ε α → Bool
  | .error _ => true
  | .ok _ => false

/-! ## Offer normalization (`process_results`) -/

/-- Python `round(x, 2)` uses round-half-to-even; the integer-valued
rounding at two decimal places. -/
def roundHalfEven (x : ℚ) : ℤ :=
  if x - ⌊x⌋ < 1 / 2 then ⌊x⌋
  else if x - ⌊x⌋ > 1 / 2 then ⌊x⌋ + 1
  else if ⌊x⌋ % 2 = 0 then ⌊x⌋ else ⌊x⌋ + 1

/-- `round(x, 2)`: round to two decimal places, ties to even. -/
def round2 (x : ℚ) : ℚ := (roundHalfEven (x * 100) : ℚ) / 100

/-- A normalized offer: the dict built by `process_results`, with the
`ret_*` fields that the merge step of `main` adds later (defaulted until
the merge runs; the Python dict simply lacks them before that).  Dates are
day numbers (the code stores them `strftime`-formatted). -/
structure Offer where
  price_total : ℚ
  price_pp : ℚ
  dep_date : ℤ
  ret_date : ℤ
  dep_airport : String
  dest_airport : String
  origin_code : String
  airline : String
  departure : String
  arrival : String
  duration : String
  stops : ℕ
  stops_detail : String
  nights : ℤ
  link : Query
  ret_airline : String := ""
  ret_departure : String := ""
  ret_arrival : String := ""
  ret_duration : String := ""
  ret_stops : ℕ := 0
  ret_stops_detail : String := ""
deriving DecidableEq

/-- `process_results` from monitor.py: parse each listing's price
(discarding unparseable ones), compute the per-person price, drop
listings over the stop limit, and build the offer record with a rebuilt
deep link.  The Python function takes the whole result object and returns
`[]` when it is `None`/empty; the model receives the listing list
directly (the `None` case is handled by the caller model). -/
def process_results (flights : List ScrapedFlight) (origin : String)
    (dep_date ret_date nights : ℤ) (c : Config) : List Offer :=
  flights.filterMap fun f =>
    match parse_price f.price with
    | none => none
    | some price =>
      let price_pp := price / (c.adults : ℚ)
      let num_stops := parse_stops f.stops
      if num_stops > c.max_stops then none
      else some
        { price_total := price
          price_pp := round2 price_pp
          dep_date := dep_date
          ret_date := ret_date
          dep_airport := get_airport_name origin
          dest_airport := get_airport_name c.destination
          origin_code := origin
          airline := f.airline
          departure := f.departure
          arrival := f.arrival
          duration := f.duration
          stops := num_stops
          stops_detail := if f.stops = "" then "Diretto" else f.stops
          nights := nights
          link := outboundQuery c origin dep_date ret_date }

/-! ## Phase 1: outbound searches -/

/-- The outbound search jobs of `main`: `for origin in origins: for
(dep, ret, nights) in date_pairs:`. -/
def searchJobs (today : ℤ) (c : Config) : List (String × (ℤ × ℤ × ℤ)) :=
  c.origins.flatMap fun o => (generate_date_pairs today c).1.map fun p => (o, p)

/-- The offers contributed by a single outbound search job (empty when the
search errored or found nothing). -/
def searchOffers (fetch : Query → Except FetchErr (List ScrapedFlight))
    (c : Config) (j : String × (ℤ × ℤ × ℤ)) : List Offer :=
  match runSearchModel fetch (outboundQuery c j.1 j.2.1 j.2.2.1) with
  | some fl => process_results fl j.1 j.2.1 j.2.2.1 j.2.2.2 c
  | none => []

/-- The Phase-1 loop of `main`: accumulates `all_flights` and the
`errors` counter over the job list.  An errored search (run_search
returned `None`) only bumps the counter; an empty result contributes no
offers and no error. -/
def phase1Aux (fetch : Query → Except FetchErr (List ScrapedFlight))
    (c : Config) : List (String × (ℤ × ℤ × ℤ)) → List Offer × ℕ
  | [] => ([], 0)
  | j :: rest =>
    let r := phase1Aux fetch c rest
    match runSearchModel fetch (outboundQuery c j.1 j.2.1 j.2.2.1) with
    | some fl => (process_results fl j.1 j.2.1 j.2.2.1 j.2.2.2 c ++ r.1, r.2)
    | none => (r.1, r.2 + 1)

/-- `all_flights` after Phase 1. -/
def allFlights (fetch : Query → Except FetchErr (List ScrapedFlight))
    (today : ℤ) (c : Config) : List Offer :=
  (phase1Aux fetch c (searchJobs today c)).1

/-- The `errors` counter after Phase 1. -/
def phase1Errors (fetch : Query → Except FetchErr (List ScrapedFlight))
    (today : ℤ) (c : Config) : ℕ :=
  (phase1Aux fetch c (searchJobs today c)).2

/-! ## Phase 2: return-leg detail searches -/

/-- First-occurrence deduplication by a key function, with the set of
already-seen keys as accumulator (Python's `seen` set / dict keys). -/
def dedupByAux {α κ : Type} [DecidableEq κ] (key : α → κ) :
    List κ → List α → List α
  | _, [] => []
  | seen, a :: rest =>
    if key a ∈ seen then dedupByAux key seen rest
    else a :: dedupByAux key (key a :: seen) rest

/-- First-occurrence deduplication by a key function. -/
def dedupBy {α κ : Type} [DecidableEq κ] (key : α → κ) (l : List α) : List α :=
  dedupByAux key [] l

/-- The keys of the `unique_returns` dict of `main`: the distinct
(ret_date, origin) combinations over `date_pairs × origins`, in insertion
order (`for (dep, ret, n) in date_pairs: for origin in origins:`). -/
def returnKeys (today : ℤ) (c : Config) : List (ℤ × String) :=
  dedupBy id
    ((generate_date_pairs today c).1.flatMap fun p =>
      c.origins.map fun o => (p.2.1, o))

/-- The return-leg detail record built by `search_return_flights`. -/
structure RetInfo where
  ret_airline : String
  ret_departure : String
  ret_arrival : String
  ret_duration : String
  ret_stops : ℕ
  ret_stops_detail : String
deriving DecidableEq

/-- The record `search_return_flights` builds from an accepted listing. -/
def mkRetInfo (f : ScrapedFlight) : RetInfo :=
  { ret_airline := f.airline
    ret_departure := f.departure
    ret_arrival := f.arrival
    ret_duration := f.duration
    ret_stops := parse_stops f.stops
    ret_stops_detail := if f.stops = "" then "Diretto" else f.stops }

/-- The `for f in result.flights` loop of `search_return_flights`: the
first listing within the stop limit wins. -/
def firstValidReturn (c : Config) : List ScrapedFlight → Option RetInfo
  | [] => none
  | f :: rest =>
    if parse_stops f.stops ≤ c.max_stops then some (mkRetInfo f)
    else firstValidReturn c rest

/-- `search_return_flights` from monitor.py: a one-way
destination→origin search on the return date, answered by the first
listing satisfying the stop filter. -/
def search_return_flights (fetch : Query → Except FetchErr (List ScrapedFlight))
    (destination origin : String) (ret_date : ℤ) (adults : ℕ) (c : Config) :
    Option RetInfo :=
  match runSearchModel fetch
      { trip := .oneWay, legs := [(ret_date, destination, origin)], adults := adults } with
  | none => none
  | some [] => none
  | some fl => firstValidReturn c fl

/-- The filled `unique_returns` dict after Phase 2: one
`search_return_flights` call per key, in key order. -/
def phase2Map (fetch : Query → Except FetchErr (List ScrapedFlight))
    (today : ℤ) (c : Config) : List ((ℤ × String) × Option RetInfo) :=
  (returnKeys today c).map fun k =>
    (k, search_return_flights fetch c.destination k.2 k.1 c.adults c)

/-- `unique_returns.get((ret_date, origin))` at merge time: `none` both
for a missing key and for a key whose search found nothing. -/
def lookupRet (fetch : Query → Except FetchErr (List ScrapedFlight))
    (today : ℤ) (c : Config) (k : ℤ × String) : Option RetInfo :=
  ((phase2Map fetch today c).lookup k).join

/-! ## Merge, deduplication and ranking -/

/-- The merge step of `main` for one offer: merge the return-leg record
when present, otherwise fall back to the outbound airline and stop
profile with the duration marked unknown ("N/D"). -/
def mergeOffer (ret : Option RetInfo) (f : Offer) : Offer :=
  match ret with
  | some ri =>
    { f with
      ret_airline := ri.ret_airline
      ret_departure := ri.ret_departure
      ret_arrival := ri.ret_arrival
      ret_duration := ri.ret_duration
      ret_stops := ri.ret_stops
      ret_stops_detail := ri.ret_stops_detail }
  | none =>
    { f with
      ret_airline := f.airline
      ret_departure := ""
      ret_arrival := ""
      ret_duration := "N/D"
      ret_stops := f.stops
      ret_stops_detail := f.stops_detail }

/-- `all_flights` after the return-detail merge loop. -/
def mergedFlights (fetch : Query → Except FetchErr (List ScrapedFlight))
    (today : ℤ) (c : Config) : List Offer :=
  (allFlights fetch today c).map fun f =>
    mergeOffer (lookupRet fetch today c (f.ret_date, f.origin_code)) f

/-- The deduplication key of `main`:
(price_total, dep_date, ret_date, dep_airport, airline). -/
def dedupKey (f : Offer) : ℚ × ℤ × ℤ × String × String :=
  (f.price_total, f.dep_date, f.ret_date, f.dep_airport, f.airline)

/-- The duplicate-removal loop of `main` (`seen` set, keep first). -/
def dedupFlights (l : List Offer) : List Offer := dedupBy dedupKey l

/-- Sorting relation of `unique_flights.sort(key=lambda x: x["price_pp"])`. -/
def priceLE (a b : Offer) : Prop := a.price_pp ≤ b.price_pp

instance : DecidableRel priceLE :=
  fun a b => inferInstanceAs (Decidable (a.price_pp ≤ b.price_pp))

instance : IsTotal Offer priceLE := ⟨fun a b => le_total a.price_pp b.price_pp⟩

instance : IsTrans Offer priceLE := ⟨fun _ _ _ h1 h2 => le_trans h1 h2⟩

/-- Python `list.sort` is a stable sort; its denotation is modelled by
insertion sort (stability and sortedness are proved below, and a stable
sort's output is uniquely determined by them). -/
def sortFlights (l : List Offer) : List Offer := l.insertionSort priceLE

/-- `unique_flights` as finally ranked by `main`: merge, deduplicate,
sort by per-person price ascending. -/
def runModel (fetch : Query → Except FetchErr (List ScrapedFlight))
    (today : ℤ) (c : Config) : List Offer :=
  sortFlights (dedupFlights (mergedFlights fetch today c))

/-! ## Concrete fixtures for witnesses and counterexamples -/

/-- A concrete configuration matching the sampler example of the spec:
window day 1 to day 10, step 5, nights 3-5. -/
def sampleCfg : Config :=
  { origins := ["MXP"], destination := "MLE", date_from := 1, date_to := 10,
    nights_min := 3, nights_max := 5, step := 5, adults := 2, max_stops := 1 }

/-- The spec's out-of-horizon example: date_from = today + 400,
date_to = today + 450 with the 330-day horizon. -/
def farCfg : Config :=
  { origins := ["MXP"], destination := "MLE", date_from := 400, date_to := 450,
    nights_min := 3, nights_max := 5, step := 5, adults := 2, max_stops := 1 }

/-- A configuration with a departure close to the horizon: day 328 with
nights candidates {1, 3, 5} and horizon day 330. -/
def lateCfg : Config :=
  { origins := ["MXP"], destination := "MLE", date_from := 328, date_to := 328,
    nights_min := 1, nights_max := 5, step := 5, adults := 2, max_stops := 1 }

/-- A minimal one-origin, one-departure configuration for end-to-end
fixtures. -/
def monitorCfg : Config :=
  { origins := ["MXP"], destination := "MLE", date_from := 1, date_to := 1,
    nights_min := 3, nights_max := 3, step := 5, adults := 2, max_stops := 1 }

/-- A concrete nonstop listing priced €900. -/
def flW : ScrapedFlight :=
  { airline := "TestAir", departure := "10:00", arrival := "18:00",
    duration := "8 hr", stops := "Nonstop", price := "€900" }

/-- An oracle that answers every round-trip search with the €900 listing
and every one-way (return-detail) search with no listings. -/
def fetchW (q : Query) : Except FetchErr (List ScrapedFlight) :=
  match q.trip with
  | .roundTrip => .ok [flW]
  | .oneWay => .ok []

/-- An oracle whose searches all come back empty. -/
def fetchEmpty : Query → Except FetchErr (List ScrapedFlight) :=
  fun _ => .ok []

/-- An oracle whose searches all raise a navigation timeout. -/
def fetchFail : Query → Except FetchErr (List ScrapedFlight) :=
  fun _ => .error .navTimeout

/-- The offer `process_results` builds from `flW` under `monitorCfg`. -/
def offerW : Offer :=
  { price_total := 900, price_pp := 450, dep_date := 1, ret_date := 4,
    dep_airport := "Malpensa", dest_airport := "Malé", origin_code := "MXP",
    airline := "TestAir", departure := "10:00", arrival := "18:00",
    duration := "8 hr", stops := 0, stops_detail := "Nonstop", nights := 3,
    link := outboundQuery monitorCfg "MXP" 1 4 }

/-- A session whose initial navigation times out. -/
def envNav : PageEnv :=
  { navTimeout := true, selectorFound := false, netIdleTimeout := false,
    evalFault := false, listings := [] }

/-- A session where every result-container selector wait times out but
nothing else faults. -/
def envSelectorMiss : PageEnv :=
  { navTimeout := false, selectorFound := false, netIdleTimeout := false,
    evalFault := false, listings := [flW] }

end FlightMonitor

namespace FlightMonitor

/-! ## C1: parse_price separator disambiguation -/

unseal Rat.add Rat.mul Rat.inv Rat.sub in
/-- C1 (counterexample): the claim says `parse_price "€1.234"` returns
1234, but the code has no thousands-separator handling for a
period-only string: the lone period is passed to `float` as a decimal
separator and the result is 1.234. -/
theorem parse_price_period_only_not_thousands :
    parse_price "€1.234" = some (617 / 500) ∧ ((617 : ℚ) / 500) ≠ 1234 := by
  decide

unseal Rat.add Rat.mul Rat.inv Rat.sub in
/-- C1 (amended): `parse_price` yields 1.234 for "€1.234" (a lone period
is always treated as a decimal separator); for "€1,234", "€1,234.56" and
"€1.234,56" it yields 1234, 1234.56 and 1234.56 as documented, and for
"" or "N/A" it yields the unparseable signal `none` rather than raising. -/
theorem parse_price_documented_examples :
    parse_price "€1.234" = some (617 / 500) ∧
    parse_price "€1,234" = some 1234 ∧
    parse_price "€1,234.56" = some (123456 / 100) ∧
    parse_price "€1.234,56" = some (123456 / 100) ∧
    parse_price "" = none ∧
    parse_price "N/A" = none := by
  refine ⟨by decide, by decide, by decide, by decide, by decide, by decide⟩

/-! ## Sampler loop lemmas -/

/-- `genLoopAux` does not depend on the fuel once the fuel covers the
remaining iteration count. -/
lemma genLoopAux_fuel (endD step : ℤ) :
    ∀ (f1 : ℕ), ∀ (f2 : ℕ) (cur : ℤ),
      (endD + 1 - cur).toNat ≤ f1 → (endD + 1 - cur).toNat ≤ f2 →
      genLoopAux endD step f1 cur = genLoopAux endD step f2 cur := by
  intro f1
  induction f1 with
  | zero =>
    intro f2 cur h1 h2
    have hcur : ¬ cur ≤ endD := by omega
    cases f2 with
    | zero => rfl
    | succ f =>
      simp [genLoopAux, hcur]
  | succ f1 ih =>
    intro f2 cur h1 h2
    by_cases hc : 0 < step ∧ cur ≤ endD
    · cases f2 with
      | zero => omega
      | succ f2 =>
        simp only [genLoopAux, if_pos hc]
        have := ih f2 (cur + step) (by omega) (by omega)
        rw [this]
    · cases f2 with
      | zero => simp only [genLoopAux, if_neg hc]
      | succ f2 => simp only [genLoopAux, if_neg hc]

/-- The loop equation of genLoop in the running case: one pass emits the
current departure date and continues from `current + step`. -/
lemma genLoop_cons (endD step current : ℤ) (hs : 0 < step)
    (hle : current ≤ endD) :
    genLoop endD step current = current :: genLoop endD step (current + step) := by
  unfold genLoop
  have h1 : (endD + 1 - current).toNat = (endD + 1 - current - 1).toNat + 1 := by omega
  rw [h1]
  simp only [genLoopAux, if_pos (And.intro hs hle)]
  congr 1
  exact genLoopAux_fuel endD step _ _ (current + step) (by omega) (by omega)

/-- The loop equation of genLoop in the exit case. -/
lemma genLoop_nil (endD step current : ℤ) (h : ¬ (0 < step ∧ current ≤ endD)) :
    genLoop endD step current = [] := by
  unfold genLoop
  cases hf : (endD + 1 - current).toNat with
  | zero => rfl
  | succ f => simp only [genLoopAux, if_neg h]

/-- Every date the loop visits is at least the starting cursor. -/
lemma genLoopAux_lower (endD step : ℤ) :
    ∀ (fuel : ℕ) (cur x : ℤ), x ∈ genLoopAux endD step fuel cur → cur ≤ x := by
  intro fuel
  induction fuel with
  | zero => intro cur x hx; simp [genLoopAux] at hx
  | succ f ih =>
    intro cur x hx
    by_cases hc : 0 < step ∧ cur ≤ endD
    · simp only [genLoopAux, if_pos hc, List.mem_cons] at hx
      rcases hx with rfl | hx
      · exact le_refl x
      · have := ih (cur + step) x hx
        omega
    · simp [genLoopAux, if_neg hc] at hx

/-- The visited departure dates are strictly increasing. -/
lemma genLoopAux_sorted (endD step : ℤ) :
    ∀ (fuel : ℕ) (cur : ℤ), (genLoopAux endD step fuel cur).Pairwise (· < ·) := by
  intro fuel
  induction fuel with
  | zero => intro cur; simp [genLoopAux]
  | succ f ih =>
    intro cur
    by_cases hc : 0 < step ∧ cur ≤ endD
    · simp only [genLoopAux, if_pos hc]
      refine List.Pairwise.cons ?_ (ih (cur + step))
      intro x hx
      have := genLoopAux_lower endD step f (cur + step) x hx
      omega
    · simp [genLoopAux, if_neg hc]

/-- The departure dates visited by genLoop are strictly increasing. -/
lemma genLoop_sorted (endD step current : ℤ) :
    (genLoop endD step current).Pairwise (· < ·) := by
  unfold genLoop
  exact genLoopAux_sorted endD step _ current

/-- Fuel sufficiency: when the step is positive, every loop iterate that
is still within the window really is produced by `genLoop`. -/
lemma loopCurrent_mem_genLoop (endD step : ℤ) (hs : 0 < step) :
    ∀ (n : ℕ) (fuel : ℕ) (start : ℤ), (endD + 1 - start).toNat ≤ fuel →
      loopCurrent start step n ≤ endD →
      loopCurrent start step n ∈ genLoopAux endD step fuel start := by
  intro n
  induction n with
  | zero =>
    intro fuel start hf hle
    simp only [loopCurrent, Nat.cast_zero, zero_mul, add_zero] at hle ⊢
    cases fuel with
    | zero => omega
    | succ f =>
      simp [genLoopAux, hs, hle]
  | succ n ih =>
    intro fuel start hf hle
    have hnn : (0 : ℤ) ≤ ((n : ℤ) + 1) * step := by positivity
    have hx : start ≤ loopCurrent start step (n + 1) := by
      simp only [loopCurrent]
      push_cast
      linarith
    have hstart : start ≤ endD := le_trans hx hle
    cases fuel with
    | zero => omega
    | succ f =>
      simp only [genLoopAux, if_pos (And.intro hs hstart), List.mem_cons]
      right
      have heq : loopCurrent (start + step) step n = loopCurrent start step (n + 1) := by
        simp only [loopCurrent]
        push_cast
        ring
      rw [← heq] at hle ⊢
      exact ih f (start + step) (by omega) hle

/-! ## C5: emitted pairs satisfy ret = dep + nights and the horizon bound -/

/-- C5: every (departure, return, nights) triple emitted by
generate_date_pairs has return date equal to departure date plus nights,
and return date within today + 330 days; candidates beyond the horizon
are not emitted. -/
theorem generate_date_pairs_return_invariant (today : ℤ) (c : Config)
    (p : ℤ × ℤ × ℤ) (hp : p ∈ (generate_date_pairs today c).1) :
    p.2.1 = p.1 + p.2.2 ∧ p.2.1 ≤ today + MAX_DAYS_AHEAD := by
  simp only [generate_date_pairs] at hp
  split at hp
  · simp at hp
  · simp only [List.mem_flatMap, List.mem_filterMap] at hp
    obtain ⟨cur, hcur, n, hn, hsome⟩ := hp
    by_cases hc : cur + n ≤ today + MAX_DAYS_AHEAD
    · rw [if_pos hc] at hsome
      injection hsome with h
      subst h
      exact ⟨rfl, hc⟩
    · rw [if_neg hc] at hsome
      cases hsome

/-- C5 witness: with today = 0 and the sample configuration, the pair
(1, 4, 3) is emitted and the theorem instantiates on it. -/
theorem generate_date_pairs_return_invariant_witness :
    ((1 : ℤ), (4 : ℤ), (3 : ℤ)).2.1 = ((1 : ℤ), (4 : ℤ), (3 : ℤ)).1 + ((1 : ℤ), (4 : ℤ), (3 : ℤ)).2.2 ∧
    ((1 : ℤ), (4 : ℤ), (3 : ℤ)).2.1 ≤ 0 + MAX_DAYS_AHEAD :=
  generate_date_pairs_return_invariant 0 sampleCfg (1, 4, 3) (by decide)

/-! ## C6: inverted clipped window yields the empty sequence -/

/-- C6: when the requested window clipped to
[tomorrow, today + horizon] is inverted, generate_date_pairs returns the
empty pair list (a clean retry-later signal), not an error. -/
theorem generate_date_pairs_out_of_horizon_empty (today : ℤ) (c : Config)
    (h : min c.date_to (today + MAX_DAYS_AHEAD) < max c.date_from (today + 1)) :
    (generate_date_pairs today c).1 = [] := by
  simp only [generate_date_pairs]
  split
  · rfl
  next hcond => omega

/-- C6 witness: the documented example (today = 0, window 400-450, horizon
330) produces the empty sequence. -/
theorem generate_date_pairs_out_of_horizon_empty_witness :
    (generate_date_pairs 0 farCfg).1 = [] :=
  generate_date_pairs_out_of_horizon_empty 0 farCfg (by decide)

/-! ## C10: termination of the sampling loop -/

/-- C10: the departure-date walk of generate_date_pairs terminates exactly
under the (unvalidated) precondition step ≥ 1: with step ≥ 1 the cursor
eventually leaves the window (and until then every iterate is produced by
the loop), while with step ≤ 0 and a non-empty clipped window the cursor
never passes the end, so the Python while-loop never exits. -/
theorem sampling_loop_termination (start endD step : ℤ) :
    (1 ≤ step → ∃ n : ℕ, endD < loopCurrent start step n) ∧
    (1 ≤ step → ∀ n : ℕ, loopCurrent start step n ≤ endD →
      loopCurrent start step n ∈ genLoop endD step start) ∧
    (step ≤ 0 → start ≤ endD → ∀ n : ℕ, loopCurrent start step n ≤ endD) := by
  refine ⟨?_, ?_, ?_⟩
  · intro hs
    refine ⟨(endD - start + 1).toNat, ?_⟩
    have hn : (endD - start + 1 : ℤ) ≤ ((endD - start + 1).toNat : ℤ) := Int.self_le_toNat _
    have hmul : ((endD - start + 1).toNat : ℤ) * 1 ≤ ((endD - start + 1).toNat : ℤ) * step :=
      mul_le_mul_of_nonneg_left hs (by positivity)
    simp only [loopCurrent]
    rw [mul_one] at hmul
    linarith
  · intro hs n hle
    exact loopCurrent_mem_genLoop endD step (by omega) n _ start (le_refl _) hle
  · intro hstep hse n
    simp only [loopCurrent]
    nlinarith [Int.natCast_nonneg n]

/-- C10 witness: with step 1 the loop on window [0, 10] exits (a concrete
iterate passes the end), the iterate 3 is produced by the loop, and with
step 0 the cursor never passes the end at iteration 5. -/
theorem sampling_loop_termination_witness :
    (∃ n : ℕ, (10 : ℤ) < loopCurrent 0 1 n) ∧
    loopCurrent 0 1 3 ∈ genLoop 10 1 0 ∧
    loopCurrent 0 0 5 ≤ 10 :=
  ⟨(sampling_loop_termination 0 10 1).1 (by norm_num),
   (sampling_loop_termination 0 10 1).2.1 (by norm_num) 3 (by decide),
   (sampling_loop_termination 0 10 0).2.2 (by norm_num) (by norm_num) 5⟩

/-! ## C7: nights attached to each sampled departure -/

lemma generate_date_pairs_eq_flatMap (today : ℤ) (c : Config)
    (hwin : ¬ max c.date_from (today + 1) > min c.date_to (today + MAX_DAYS_AHEAD)) :
    (generate_date_pairs today c).1 =
      (genLoop (min c.date_to (today + MAX_DAYS_AHEAD)) c.step
          (max c.date_from (today + 1))).flatMap
        (nightsGroup c (today + MAX_DAYS_AHEAD)) := by
  simp only [generate_date_pairs, nightsGroup]
  rw [if_neg hwin]
  rfl

lemma nightsGroup_fst (c : Config) (maxDate d : ℤ) (p : ℤ × ℤ × ℤ)
    (hp : p ∈ nightsGroup c maxDate d) : p.1 = d := by
  simp only [nightsGroup, List.mem_filterMap] at hp
  obtain ⟨n, hn, hsome⟩ := hp
  by_cases hc : d + n ≤ maxDate
  · rw [if_pos hc] at hsome
    injection hsome with h
    subst h
    rfl
  · rw [if_neg hc] at hsome
    cases hsome

lemma nightsGroup_map_nights (c : Config) (maxDate d : ℤ) :
    (nightsGroup c maxDate d).map (fun p => p.2.2) =
      (nightsOptions c).filter (fun n => decide (d + n ≤ maxDate)) := by
  unfold nightsGroup
  induction nightsOptions c with
  | nil => rfl
  | cons a t ih =>
    by_cases h : d + a ≤ maxDate <;>
      simp [List.filterMap_cons, List.filter_cons, h, ih]

/-- Filtering a concatenation of key-homogeneous blocks with strictly
increasing keys extracts exactly the block of the requested key. -/
lemma filter_flatMap_group (group : ℤ → List (ℤ × ℤ × ℤ))
    (hg : ∀ d p, p ∈ group d → p.1 = d) :
    ∀ (deps : List ℤ), deps.Pairwise (· < ·) → ∀ d ∈ deps,
      (deps.flatMap group).filter (fun p => decide (p.1 = d)) = group d := by
  intro deps
  induction deps with
  | nil => intro _ d hd; cases hd
  | cons a rest ih =>
    intro hpw d hd
    have hpw2 := List.pairwise_cons.mp hpw
    rw [List.flatMap_cons, List.filter_append]
    rcases List.mem_cons.mp hd with rfl | hdrest
    · have h1 : (group d).filter (fun p => decide (p.1 = d)) = group d :=
        List.filter_eq_self.mpr fun p hp => by
          simp [hg d p hp]
      have h2 : (rest.flatMap group).filter (fun p => decide (p.1 = d)) = [] := by
        refine List.filter_eq_nil_iff.mpr fun p hp => ?_
        simp only [List.mem_flatMap] at hp
        obtain ⟨e, he, hpe⟩ := hp
        have := hg e p hpe
        have := hpw2.1 e he
        simp only [decide_eq_true_eq]
        omega
      rw [h1, h2, List.append_nil]
    · have ha : a ≠ d := by
        have := hpw2.1 d hdrest
        omega
      have h1 : (group a).filter (fun p => decide (p.1 = d)) = [] := by
        refine List.filter_eq_nil_iff.mpr fun p hp => ?_
        have := hg a p hp
        simp only [decide_eq_true_eq]
        omega
      rw [h1, List.nil_append]
      exact ih hpw2.2 d hdrest

/-- The first components of a concatenation of key-homogeneous blocks
along a weakly increasing key list are weakly sorted. -/
lemma sorted_fst_flatMap_group (group : ℤ → List (ℤ × ℤ × ℤ))
    (hg : ∀ d p, p ∈ group d → p.1 = d) :
    ∀ (deps : List ℤ), deps.Pairwise (· < ·) →
      ((deps.flatMap group).map (fun p => p.1)).Pairwise (· ≤ ·) := by
  intro deps
  induction deps with
  | nil => intro _; simp
  | cons a rest ih =>
    intro hpw
    have hpw2 := List.pairwise_cons.mp hpw
    rw [List.flatMap_cons, List.map_append, List.pairwise_append]
    refine ⟨?_, ih hpw2.2, ?_⟩
    · refine List.pairwise_of_forall_mem_list fun x hx y hy => ?_
      simp only [List.mem_map] at hx hy
      obtain ⟨p, hp, rfl⟩ := hx
      obtain ⟨q, hq, rfl⟩ := hy
      rw [hg a p hp, hg a q hq]
    · intro x hx y hy
      simp only [List.mem_map] at hx hy
      obtain ⟨p, hp, rfl⟩ := hx
      obtain ⟨q, hq, rfl⟩ := hy
      simp only [List.mem_flatMap] at hq
      obtain ⟨e, he, hqe⟩ := hq
      rw [hg a p hp, hg e q hqe]
      have := hpw2.1 e he
      omega

/-- C7 (counterexample): for the departure day 328 (today = 0, horizon
330) the emitted nights are [1] — the candidates 3 and 5 are dropped by
the horizon filter — so the attached nights are not "exactly the candidate
set {min, mid, max}". -/
theorem nights_attached_not_candidate_set :
    (((generate_date_pairs 0 lateCfg).1.filter
        (fun p => decide (p.1 = 328))).map (fun p => p.2.2)) = [1] ∧
    nightsOptions lateCfg = [1, 3, 5] ∧
    ([1] : List ℤ) ≠ [1, 3, 5] := by
  refine ⟨by decide, by decide, by decide⟩

/-- C7 (amended): the output of generate_date_pairs is ordered ascending
by departure date; for every departure date `d` the sampler visits, the
attached nights values are exactly the members of the candidate list (in
its order min, mid, max) whose return date stays within the horizon; and
the candidate list is {nights_min, nights_max} plus the integer midpoint
exactly when nights_max − nights_min exceeds 2. -/
theorem sampler_nights_per_departure (today : ℤ) (c : Config) (d n : ℤ) :
    List.Sorted (· ≤ ·) ((generate_date_pairs today c).1.map (fun p => p.1)) ∧
    (d ∈ genLoop (min c.date_to (today + MAX_DAYS_AHEAD)) c.step
        (max c.date_from (today + 1)) →
      ((generate_date_pairs today c).1.filter
          (fun p => decide (p.1 = d))).map (fun p => p.2.2) =
        (nightsOptions c).filter (fun m => decide (d + m ≤ today + MAX_DAYS_AHEAD))) ∧
    (n ∈ nightsOptions c ↔
      n = c.nights_min ∨ n = c.nights_max ∨
        (c.nights_max - c.nights_min > 2 ∧
          n = Int.fdiv (c.nights_min + c.nights_max) 2)) := by
  refine ⟨?_, ?_, ?_⟩
  · by_cases hwin : max c.date_from (today + 1) > min c.date_to (today + MAX_DAYS_AHEAD)
    · simp only [generate_date_pairs]
      rw [if_pos hwin]
      simp
    · rw [generate_date_pairs_eq_flatMap today c hwin]
      exact sorted_fst_flatMap_group _ (nightsGroup_fst c _) _ (genLoop_sorted _ _ _)
  · intro hd
    have hwin : ¬ max c.date_from (today + 1) > min c.date_to (today + MAX_DAYS_AHEAD) := by
      by_contra hwin
      rw [genLoop_nil _ _ _ (by omega)] at hd
      cases hd
    rw [generate_date_pairs_eq_flatMap today c hwin,
      filter_flatMap_group _ (nightsGroup_fst c _) _ (genLoop_sorted _ _ _) d hd]
    exact nightsGroup_map_nights c _ d
  · unfold nightsOptions
    by_cases hsp : c.nights_max - c.nights_min > 2
    · simp only [if_pos hsp, List.mem_cons, List.not_mem_nil, or_false]
      constructor
      · rintro (rfl | rfl | rfl) <;> tauto
      · rintro (rfl | rfl | ⟨h2, rfl⟩) <;> tauto
    · simp only [if_neg hsp, List.mem_cons, List.not_mem_nil, or_false]
      constructor
      · rintro (rfl | rfl) <;> tauto
      · rintro (rfl | rfl | ⟨h2, rfl⟩) <;> tauto

/-- C7 witness: concrete instantiation at the sample configuration
(today = 0): departure day 1 is visited, its attached nights equal the
filtered candidate list, and 3 is a candidate. -/
theorem sampler_nights_per_departure_witness :
    List.Sorted (· ≤ ·) ((generate_date_pairs 0 sampleCfg).1.map (fun p => p.1)) ∧
    ((generate_date_pairs 0 sampleCfg).1.filter
        (fun p => decide (p.1 = 1))).map (fun p => p.2.2) =
      (nightsOptions sampleCfg).filter (fun m => decide ((1 : ℤ) + m ≤ 0 + MAX_DAYS_AHEAD)) ∧
    ((3 : ℤ) ∈ nightsOptions sampleCfg ↔
      (3 : ℤ) = sampleCfg.nights_min ∨ (3 : ℤ) = sampleCfg.nights_max ∨
        (sampleCfg.nights_max - sampleCfg.nights_min > 2 ∧
          (3 : ℤ) = Int.fdiv (sampleCfg.nights_min + sampleCfg.nights_max) 2)) :=
  ⟨(sampler_nights_per_departure 0 sampleCfg 1 3).1,
   (sampler_nights_per_departure 0 sampleCfg 1 3).2.1 (by decide),
   (sampler_nights_per_departure 0 sampleCfg 1 3).2.2⟩

/-! ## Deduplication lemmas -/

/-- Characterization of first-occurrence deduplication through filtering:
for any key value, the deduplicated list keeps exactly the first element
carrying it (and none at all if the key was already seen). -/
lemma dedupByAux_filter {α κ : Type} [DecidableEq κ] (key : α → κ) (k : κ) :
    ∀ (l : List α) (seen : List κ),
      (dedupByAux key seen l).filter (fun x => decide (key x = k)) =
        if k ∈ seen then [] else
          (l.filter (fun x => decide (key x = k))).take 1 := by
  intro l
  induction l with
  | nil => intro seen; by_cases hk : k ∈ seen <;> simp [dedupByAux, hk]
  | cons a rest ih =>
    intro seen
    by_cases hks : key a ∈ seen
    · rw [dedupByAux, if_pos hks, ih seen]
      by_cases hk : k ∈ seen
      · simp [hk]
      · have hne : ¬ key a = k := fun h => hk (h ▸ hks)
        simp [hk, List.filter_cons, hne]
    · rw [dedupByAux, if_neg hks, List.filter_cons]
      by_cases hak : key a = k
      · have hkn : k ∉ seen := fun h => hks (hak ▸ h)
        rw [if_pos (by simp [hak]), ih (key a :: seen),
          if_pos (by simp [hak]), if_neg hkn, List.filter_cons,
          if_pos (by simp [hak])]
        simp
      · rw [if_neg (by simp [hak]), ih (key a :: seen)]
        by_cases hk : k ∈ seen
        · rw [if_pos (List.mem_cons_of_mem _ hk), if_pos hk]
        · have hnotc : k ∉ (key a :: seen) := by
            intro h
            rcases List.mem_cons.mp h with h1 | h2
            · exact hak h1.symm
            · exact hk h2
          rw [if_neg hnotc, if_neg hk, List.filter_cons,
            if_neg (by simp [hak])]

/-! ## Stability of the ranking sort -/

lemma filter_orderedInsert_pos {α : Type} (r : α → α → Prop) [DecidableRel r]
    (q : α → Bool) (a : α) (ha : q a = true)
    (hmono : ∀ b, ¬ r a b → q b = false) :
    ∀ l, (List.orderedInsert r a l).filter q = a :: l.filter q := by
  intro l
  induction l with
  | nil => simp [List.orderedInsert, ha]
  | cons b t ih =>
    by_cases hr : r a b
    · rw [List.orderedInsert, if_pos hr]
      simp [List.filter_cons, ha]
    · rw [List.orderedInsert, if_neg hr]
      rw [List.filter_cons, List.filter_cons, hmono b hr]
      simpa using ih

lemma filter_orderedInsert_neg {α : Type} (r : α → α → Prop) [DecidableRel r]
    (q : α → Bool) (a : α) (ha : q a = false) :
    ∀ l, (List.orderedInsert r a l).filter q = l.filter q := by
  intro l
  induction l with
  | nil => simp [List.orderedInsert, ha]
  | cons b t ih =>
    by_cases hr : r a b
    · rw [List.orderedInsert, if_pos hr]
      simp [List.filter_cons, ha]
    · rw [List.orderedInsert, if_neg hr]
      rw [List.filter_cons, List.filter_cons, ih]

/-- Insertion sort is stable in the filtering sense: any predicate closed
downward along the sorting relation (in the contrapositive form below)
selects the same subsequence before and after sorting. -/
lemma filter_insertionSort {α : Type} (r : α → α → Prop) [DecidableRel r]
    (q : α → Bool) (hmono : ∀ a b, q a = true → ¬ r a b → q b = false) :
    ∀ l, (List.insertionSort r l).filter q = l.filter q := by
  intro l
  induction l with
  | nil => rfl
  | cons a t ih =>
    rw [List.insertionSort]
    cases ha : q a with
    | true =>
      rw [filter_orderedInsert_pos r q a ha (fun b => hmono a b ha), ih,
        List.filter_cons, ha]
      simp
    | false =>
      rw [filter_orderedInsert_neg r q a ha, ih, List.filter_cons, ha]
      simp

/-! ## C2: deduplication and ranking of the final output -/

/-- C2: offers sharing the dedup key (price_total, dep date, ret date,
origin label, airline) collapse to the single first-seen offer whatever
their other fields; the sort then permutes the survivors into per-person
price ascending order, and offers with equal per-person price keep their
first-seen relative order (stability). -/
theorem dedup_first_seen_and_stable_ranking (l : List Offer)
    (k : ℚ × ℤ × ℤ × String × String) (v : ℚ) :
    (dedupFlights l).filter (fun f => decide (dedupKey f = k)) =
      (l.filter (fun f => decide (dedupKey f = k))).take 1 ∧
    (sortFlights (dedupFlights l)).Perm (dedupFlights l) ∧
    List.Sorted priceLE (sortFlights (dedupFlights l)) ∧
    (sortFlights (dedupFlights l)).filter (fun f => decide (f.price_pp = v)) =
      (dedupFlights l).filter (fun f => decide (f.price_pp = v)) := by
  refine ⟨?_, ?_, ?_, ?_⟩
  · unfold dedupFlights dedupBy
    rw [dedupByAux_filter dedupKey k l []]
    simp
  · exact List.perm_insertionSort priceLE _
  · exact List.sorted_insertionSort priceLE _
  · apply filter_insertionSort
    intro a b hqa hr
    simp only [decide_eq_true_eq] at hqa
    simp only [priceLE, not_le] at hr
    simp only [decide_eq_false_iff_not]
    intro hqb
    rw [hqa, hqb] at hr
    exact absurd hr (lt_irrefl v)

/-! ## process_results dissection -/

/-- Field facts about every offer process_results emits: the offer records
the loop's return date and origin, its per-person price is the rounded
quotient of its total price by the adults count, and it respects the stop
limit. -/
lemma mem_process_results_fields (fl : List ScrapedFlight) (origin : String)
    (dep ret nights : ℤ) (c : Config) (o : Offer)
    (ho : o ∈ process_results fl origin dep ret nights c) :
    o.ret_date = ret ∧ o.origin_code = origin ∧
    o.price_pp = round2 (o.price_total / (c.adults : ℚ)) ∧
    o.stops ≤ c.max_stops := by
  simp only [process_results, List.mem_filterMap] at ho
  obtain ⟨f, hf, hsome⟩ := ho
  cases hp : parse_price f.price with
  | none => rw [hp] at hsome; cases hsome
  | some price =>
    rw [hp] at hsome
    simp only at hsome
    by_cases hs : parse_stops f.stops > c.max_stops
    · rw [if_pos hs] at hsome
      cases hsome
    · rw [if_neg hs] at hsome
      injection hsome with h
      subst h
      exact ⟨rfl, rfl, rfl, le_of_not_lt hs⟩

/-! ## C8: per-person price -/

/-- C8: every offer produced by process_results from a parseable listing
has price_pp equal to price_total divided by the configured adults count,
rounded to 2 decimal places (Python round, ties to even). -/
theorem price_pp_is_rounded_quotient (fl : List ScrapedFlight) (origin : String)
    (dep ret nights : ℤ) (c : Config) (o : Offer)
    (ho : o ∈ process_results fl origin dep ret nights c) :
    o.price_pp = round2 (o.price_total / (c.adults : ℚ)) :=
  (mem_process_results_fields fl origin dep ret nights c o ho).2.2.1

unseal Rat.add Rat.mul Rat.inv Rat.sub in
/-- C8 witness: the €900 nonstop listing for 2 adults yields
price_pp = round2(900/2) = 450. -/
theorem price_pp_is_rounded_quotient_witness :
    offerW.price_pp = round2 (offerW.price_total / (monitorCfg.adults : ℚ)) :=
  price_pp_is_rounded_quotient [flW] "MXP" 1 4 3 monitorCfg offerW (by decide)

/-! ## Phase-1 loop characterization -/

/-- The Phase-1 loop accumulates exactly the per-job offers, in job
order. -/
lemma phase1Aux_offers (fetch : Query → Except FetchErr (List ScrapedFlight))
    (c : Config) :
    ∀ js : List (String × (ℤ × ℤ × ℤ)),
      (phase1Aux fetch c js).1 = js.flatMap (searchOffers fetch c) := by
  intro js
  induction js with
  | nil => rfl
  | cons j rest ih =>
    cases h : runSearchModel fetch (outboundQuery c j.1 j.2.1 j.2.2.1) with
    | none => simp [phase1Aux, h, searchOffers, ih]
    | some fl => simp [phase1Aux, h, searchOffers, ih]

/-- The Phase-1 loop counts exactly the searches whose fetch raised. -/
lemma phase1Aux_errors (fetch : Query → Except FetchErr (List ScrapedFlight))
    (c : Config) :
    ∀ js : List (String × (ℤ × ℤ × ℤ)),
      (phase1Aux fetch c js).2 =
        js.countP (fun j => isErr (fetch (outboundQuery c j.1 j.2.1 j.2.2.1))) := by
  intro js
  induction js with
  | nil => rfl
  | cons j rest ih =>
    cases h : fetch (outboundQuery c j.1 j.2.1 j.2.2.1) with
    | ok r =>
      simp [phase1Aux, runSearchModel, h, isErr, List.countP_cons, ih]
    | error e =>
      simp [phase1Aux, runSearchModel, h, isErr, List.countP_cons, ih]

/-! ## C4: fault containment at the search-loop boundary -/

/-- C4 (counterexample): on a navigation timeout the Extractor does not
return an empty listing result — `_fetch_flights` has no `except` clause,
so the exception propagates out of the Extractor (it is `run_search` in
the orchestrator that catches it). -/
theorem extractor_raises_on_navigation_timeout :
    fetchModel envNav = Except.error FetchErr.navTimeout ∧
    fetchModel envNav ≠ Except.ok ([] : List ScrapedFlight) := by
  constructor
  · rfl
  · intro h
    cases h

/-- C4 (amended): a selector-wait timeout alone is absorbed inside the
Extractor (all `wait_for_selector` calls are individually caught and the
evaluation still runs), whereas navigation timeouts, network-idle
fallback timeouts and evaluation failures raise out of the Extractor;
`run_search` catches every exception of an individual search and returns
the no-result signal, and the orchestrator's Phase-1 loop processes every
query regardless, counting exactly the raised searches as errors. -/
theorem search_loop_fault_containment (env : PageEnv)
    (fetch : Query → Except FetchErr (List ScrapedFlight)) (q : Query)
    (e : FetchErr) (c : Config) (js : List (String × (ℤ × ℤ × ℤ))) :
    (env.navTimeout = false → env.evalFault = false →
      (env.selectorFound = true ∨ env.netIdleTimeout = false) →
      fetchModel env = Except.ok env.listings) ∧
    (fetch q = Except.error e → runSearchModel fetch q = none) ∧
    (phase1Aux fetch c js).1 = js.flatMap (searchOffers fetch c) ∧
    (phase1Aux fetch c js).2 =
      js.countP (fun j => isErr (fetch (outboundQuery c j.1 j.2.1 j.2.2.1))) := by
  refine ⟨?_, ?_, phase1Aux_offers fetch c js, phase1Aux_errors fetch c js⟩
  · intro hnav heval hsel
    unfold fetchModel
    rw [hnav, heval]
    rcases hsel with hs | hn
    · rw [hs]
      simp
    · rw [hn]
      simp
  · intro hq
    unfold runSearchModel
    rw [hq]

/-- C4 witness: a session where every selector wait times out still
returns its listings without raising; a fetch that raises a navigation
timeout is converted to the no-result signal by run_search; and with an
always-raising oracle the Phase-1 loop over the one-job list still
processes it, counting one error. -/
theorem search_loop_fault_containment_witness :
    fetchModel envSelectorMiss = Except.ok [flW] ∧
    runSearchModel fetchFail (outboundQuery monitorCfg "MXP" 1 4) = none ∧
    (phase1Aux fetchFail monitorCfg [("MXP", (1, 4, 3))]).2 =
      [("MXP", ((1 : ℤ), (4 : ℤ), (3 : ℤ)))].countP
        (fun j => isErr (fetchFail (outboundQuery monitorCfg j.1 j.2.1 j.2.2.1))) :=
  ⟨(search_loop_fault_containment envSelectorMiss fetchFail
      (outboundQuery monitorCfg "MXP" 1 4) FetchErr.navTimeout monitorCfg
      [("MXP", (1, 4, 3))]).1 rfl rfl (Or.inr rfl),
   (search_loop_fault_containment envSelectorMiss fetchFail
      (outboundQuery monitorCfg "MXP" 1 4) FetchErr.navTimeout monitorCfg
      [("MXP", (1, 4, 3))]).2.1 rfl,
   (search_loop_fault_containment envSelectorMiss fetchFail
      (outboundQuery monitorCfg "MXP" 1 4) FetchErr.navTimeout monitorCfg
      [("MXP", (1, 4, 3))]).2.2.2⟩

/-! ## dedupBy membership lemmas -/

lemma dedupByAux_sublist {α κ : Type} [DecidableEq κ] (key : α → κ) :
    ∀ (l : List α) (seen : List κ), (dedupByAux key seen l).Sublist l := by
  intro l
  induction l with
  | nil => intro seen; simp [dedupByAux]
  | cons a rest ih =>
    intro seen
    rw [dedupByAux]
    by_cases hks : key a ∈ seen
    · rw [if_pos hks]
      exact (ih seen).cons a
    · rw [if_neg hks]
      exact (ih (key a :: seen)).cons₂ a

/-- Every unseen key occurring in the input is represented in the
deduplicated output. -/
lemma exists_mem_dedupByAux {α κ : Type} [DecidableEq κ] (key : α → κ) :
    ∀ (l : List α) (seen : List κ) (x : α), x ∈ l → key x ∉ seen →
      ∃ y ∈ dedupByAux key seen l, key y = key x := by
  intro l
  induction l with
  | nil => intro seen x hx; cases hx
  | cons a rest ih =>
    intro seen x hx hxs
    rw [dedupByAux]
    by_cases hks : key a ∈ seen
    · rw [if_pos hks]
      rcases List.mem_cons.mp hx with rfl | hx2
      · exact absurd hks hxs
      · exact ih seen x hx2 hxs
    · rw [if_neg hks]
      by_cases hxa : key x = key a
      · exact ⟨a, List.mem_cons_self a _, hxa.symm⟩
      · rcases List.mem_cons.mp hx with rfl | hx2
        · exact absurd rfl hxa
        · obtain ⟨y, hy, hky⟩ := ih (key a :: seen) x hx2 (by
            intro h
            rcases List.mem_cons.mp h with h1 | h2
            · exact hxa h1
            · exact hxs h2)
          exact ⟨y, List.mem_cons_of_mem a hy, hky⟩

/-- The deduplicated output carries pairwise distinct keys, none of them
previously seen. -/
lemma dedupByAux_keys_nodup {α κ : Type} [DecidableEq κ] (key : α → κ) :
    ∀ (l : List α) (seen : List κ),
      ((dedupByAux key seen l).map key).Nodup ∧
      ∀ y ∈ dedupByAux key seen l, key y ∉ seen := by
  intro l
  induction l with
  | nil => intro seen; simp [dedupByAux]
  | cons a rest ih =>
    intro seen
    rw [dedupByAux]
    by_cases hks : key a ∈ seen
    · rw [if_pos hks]
      exact ih seen
    · rw [if_neg hks]
      obtain ⟨ihn, ihs⟩ := ih (key a :: seen)
      refine ⟨?_, ?_⟩
      · rw [List.map_cons, List.nodup_cons]
        refine ⟨?_, ihn⟩
        intro hmem
        obtain ⟨y, hy, hky⟩ := List.mem_map.mp hmem
        exact ihs y hy (by rw [hky]; exact List.mem_cons_self _ _)
      · intro y hy
        rcases List.mem_cons.mp hy with rfl | hy2
        · exact hks
        · intro hsy
          exact ihs y hy2 (List.mem_cons_of_mem _ hsy)

/-- The Phase-2 key list holds no duplicates: one search per distinct
(ret_date, origin) pair. -/
lemma returnKeys_nodup (today : ℤ) (c : Config) : (returnKeys today c).Nodup := by
  have h := (dedupByAux_keys_nodup (id : (ℤ × String) → (ℤ × String))
    ((generate_date_pairs today c).1.flatMap fun p =>
      c.origins.map fun o => (p.2.1, o)) []).1
  simpa [returnKeys, dedupBy] using h

/-- The Phase-2 key list holds exactly the candidate (ret_date, origin)
pairs of `date_pairs × origins`. -/
lemma mem_returnKeys (today : ℤ) (c : Config) (k : ℤ × String) :
    k ∈ returnKeys today c ↔
      k ∈ (generate_date_pairs today c).1.flatMap fun p =>
        c.origins.map fun o => (p.2.1, o) := by
  constructor
  · intro h
    exact (dedupByAux_sublist id _ []).mem h
  · intro h
    obtain ⟨y, hy, hky⟩ := exists_mem_dedupByAux id _ [] k h (by simp)
    exact (show y = k from hky) ▸ hy

/-! ## C3: the Phase-2 search set -/

/-- C3 (counterexample): with an oracle whose searches all come back
empty, Phase 1 produces no offers (so no (ret_date, origin) pair is
referenced by any offer), yet the run still issues the Phase-2 search for
(day 4, "MXP") — the Phase-2 set is built from date_pairs × origins before
Phase 1 runs, not from the Phase-1 offers. -/
theorem phase2_searches_not_limited_to_referenced :
    (allFlights fetchEmpty 0 monitorCfg).map (fun f => (f.ret_date, f.origin_code)) =
      ([] : List (ℤ × String)) ∧
    returnKeys 0 monitorCfg = [(4, "MXP")] := by
  exact ⟨rfl, rfl⟩

/-- C3 (amended): the Phase-2 one-way searches are issued for exactly the
distinct (ret_date, origin) pairs of `date_pairs × origins` — a superset
of the pairs referenced by Phase-1 offers, which need not be exact because
a Phase-1 search can yield no offer — one search per distinct pair, each
answered by the first listing satisfying the stop-count filter. -/
theorem phase2_keys_cover (today : ℤ) (c : Config)
    (fetch : Query → Except FetchErr (List ScrapedFlight)) (f : Offer)
    (k : ℤ × String) (listings : List ScrapedFlight)
    (hf : f ∈ allFlights fetch today c) :
    (returnKeys today c).Nodup ∧
    (k ∈ returnKeys today c ↔
      k ∈ (generate_date_pairs today c).1.flatMap fun p =>
        c.origins.map fun o => (p.2.1, o)) ∧
    (phase2Map fetch today c).map Prod.fst = returnKeys today c ∧
    (f.ret_date, f.origin_code) ∈ returnKeys today c ∧
    firstValidReturn c listings =
      (listings.find? fun x => decide (parse_stops x.stops ≤ c.max_stops)).map
        mkRetInfo := by
  refine ⟨returnKeys_nodup today c, mem_returnKeys today c k, ?_, ?_, ?_⟩
  · rw [phase2Map, List.map_map]
    exact List.map_id _
  · rw [allFlights, phase1Aux_offers] at hf
    simp only [List.mem_flatMap] at hf
    obtain ⟨j, hj, hfj⟩ := hf
    simp only [searchJobs, List.mem_flatMap, List.mem_map] at hj
    obtain ⟨o, ho, p, hp, rfl⟩ := hj
    unfold searchOffers at hfj
    cases hrs : runSearchModel fetch (outboundQuery c o p.1 p.2.1) with
    | none => rw [hrs] at hfj; cases hfj
    | some fl =>
      rw [hrs] at hfj
      obtain ⟨hret, horig, -, -⟩ :=
        mem_process_results_fields fl o p.1 p.2.1 p.2.2 c f hfj
      rw [mem_returnKeys, hret, horig]
      simp only [List.mem_flatMap, List.mem_map]
      exact ⟨p, hp, o, ho, rfl⟩
  · induction listings with
    | nil => rfl
    | cons x rest ih =>
      by_cases hx : parse_stops x.stops ≤ c.max_stops
      · simp [firstValidReturn, List.find?_cons, hx]
      · simp [firstValidReturn, List.find?_cons, hx, ih]

unseal Rat.add Rat.mul Rat.inv Rat.sub in
/-- C3 witness: concrete instantiation with the €900 oracle: the key list
of the single-pair configuration is [(4, "MXP")], nodup, covering the key
referenced by the concrete Phase-1 offer, and the first-listing selection
holds on [flW]. -/
theorem phase2_keys_cover_witness :
    (returnKeys 0 monitorCfg).Nodup ∧
    (((4 : ℤ), "MXP") ∈ returnKeys 0 monitorCfg ↔
      ((4 : ℤ), "MXP") ∈ (generate_date_pairs 0 monitorCfg).1.flatMap fun p =>
        monitorCfg.origins.map fun o => (p.2.1, o)) ∧
    (phase2Map fetchW 0 monitorCfg).map Prod.fst = returnKeys 0 monitorCfg ∧
    (offerW.ret_date, offerW.origin_code) ∈ returnKeys 0 monitorCfg ∧
    firstValidReturn monitorCfg [flW] =
      ([flW].find? fun x => decide (parse_stops x.stops ≤ monitorCfg.max_stops)).map
        mkRetInfo :=
  phase2_keys_cover 0 monitorCfg fetchW offerW ((4 : ℤ), "MXP") [flW] (by decide)

/-! ## C9: merge fallback for offers without a return-leg record -/

/-- A list whose head is `a` has `[a]` as its one-element prefix. -/
lemma take_one_of_head {α : Type} (l : List α) (a : α) (h : l.head? = some a) :
    l.take 1 = [a] := by
  cases l with
  | nil => cases h
  | cons x t =>
    simp only [List.head?_cons, Option.some.injEq] at h
    simp [h]

/-- The merge step never touches the deduplication-key fields. -/
lemma dedupKey_mergeOffer (r : Option RetInfo) (f : Offer) :
    dedupKey (mergeOffer r f) = dedupKey f := by
  cases r <;> rfl

/-- C9: an offer whose (ret_date, origin) has no Phase-2 record gets the
fallback: its own airline as ret_airline, its outbound stop profile as
ret_stops / ret_stops_detail, duration marked unknown ("N/D"); the merge
maps offers one-to-one (nothing is dropped), and a first-seen such offer
appears (merged) in the final ranked output. -/
theorem merge_fallback_keeps_offer
    (fetch : Query → Except FetchErr (List ScrapedFlight)) (today : ℤ)
    (c : Config) (f : Offer)
    (hmiss : lookupRet fetch today c (f.ret_date, f.origin_code) = none)
    (hfirst : ((allFlights fetch today c).filter
        (fun x => decide (dedupKey x = dedupKey f))).head? = some f) :
    (mergeOffer none f).ret_airline = f.airline ∧
    (mergeOffer none f).ret_stops = f.stops ∧
    (mergeOffer none f).ret_stops_detail = f.stops_detail ∧
    (mergeOffer none f).ret_duration = "N/D" ∧
    (mergedFlights fetch today c).length = (allFlights fetch today c).length ∧
    mergeOffer none f ∈ runModel fetch today c := by
  refine ⟨rfl, rfl, rfl, rfl, by simp [mergedFlights], ?_⟩
  have hm : (mergedFlights fetch today c).filter
      (fun x => decide (dedupKey x = dedupKey f)) =
      ((allFlights fetch today c).filter
        (fun x => decide (dedupKey x = dedupKey f))).map
        (fun x => mergeOffer (lookupRet fetch today c (x.ret_date, x.origin_code)) x) := by
    rw [mergedFlights, List.filter_map]
    congr 1
    refine List.filter_congr ?_
    intro x hx
    simp [Function.comp, dedupKey_mergeOffer]
  have hhead : ((mergedFlights fetch today c).filter
      (fun x => decide (dedupKey x = dedupKey f))).head? =
      some (mergeOffer (lookupRet fetch today c (f.ret_date, f.origin_code)) f) := by
    rw [hm, List.head?_map, hfirst]
    rfl
  rw [hmiss] at hhead
  have hded : (dedupFlights (mergedFlights fetch today c)).filter
      (fun x => decide (dedupKey x = dedupKey f)) = [mergeOffer none f] := by
    unfold dedupFlights dedupBy
    rw [dedupByAux_filter dedupKey (dedupKey f) _ []]
    rw [if_neg (List.not_mem_nil _)]
    exact take_one_of_head _ _ hhead
  have hmem : mergeOffer none f ∈ dedupFlights (mergedFlights fetch today c) := by
    refine List.mem_of_mem_filter (p := fun x => decide (dedupKey x = dedupKey f)) ?_
    rw [hded]
    exact List.mem_singleton_self _
  unfold runModel sortFlights
  simpa using hmem

unseal Rat.add Rat.mul Rat.inv Rat.sub in
/-- C9 witness: with the €900 oracle (whose return searches find
nothing), the concrete offer has no return-leg record; its merged version
carries the fallback fields and appears in the final output. -/
theorem merge_fallback_keeps_offer_witness :
    (mergeOffer none offerW).ret_airline = offerW.airline ∧
    (mergeOffer none offerW).ret_stops = offerW.stops ∧
    (mergeOffer none offerW).ret_stops_detail = offerW.stops_detail ∧
    (mergeOffer none offerW).ret_duration = "N/D" ∧
    (mergedFlights fetchW 0 monitorCfg).length =
      (allFlights fetchW 0 monitorCfg).length ∧
    mergeOffer none offerW ∈ runModel fetchW 0 monitorCfg :=
  merge_fallback_keeps_offer fetchW 0 monitorCfg offerW (by decide) (by decide)

end FlightMonitor
